import Mathlib

/-!
# Verification of the adafruit-7segment display core

Shallow embedding of `src/lib.rs` of the `adafruit-7segment` crate.

Modelling conventions:
* The external display buffer (owned by the ht16k33 driver) is a function
  from row addresses to row bytes; `writeCell` models
  `HT16K33::update_display_buffer` (set/clear a u8 mask in one row).
* Machine integers are `Nat`/`Int` with explicit wrapping (`% 256` for `u8`
  casts and arithmetic, `% 16` for the 4-bit row address truncation,
  saturation at `2^32 - 1` for the `f32 -> u32` cast).
* `f32` values are modelled as exact rationals `ℚ`; the Rust cast
  `(x) as u32` (truncate toward zero, saturate) is `ratToU32`.  Floating
  rounding error and the `u32` overflow of `base.pow(fractional_digits)`
  (reachable only for `base^fd ≥ 2^32`) are not modelled: the scale factor
  is exact here.
* Rust panics (`Index::from` on an out-of-range value, `assert!` on a font
  table index) are modelled by `Option`, `none` meaning abort.  The two
  `while` loops of `update_buffer_with_float` are modelled with explicit
  fuel; running out of fuel also yields `none` (the loops can genuinely
  diverge for `base ≤ 1`, which the crate does not guard against).
-/

namespace Seg7

/-- A display buffer: row address to row byte (`u8` bitmask), as kept by the
ht16k33 driver.  The core only mutates it through `writeCell`. -/
def Buffer : Type := Nat → Nat

/-- `HT16K33::update_display_buffer` on one `LedLocation`: set (`isOn = true`)
or clear the `mask` bits of row `row` (u8 semantics: clearing ands with the
8-bit complement of the mask). -/
def writeCell (buf : Buffer) (row mask : Nat) (isOn : Bool) : Buffer :=
  fun r => if r = row then (if isOn then buf r ||| mask else buf r &&& (255 ^^^ mask)) else buf r

/-- The crate's error enum. -/
inductive Error where
  /-- Not enough digits to display the given float value. -/
  | InsufficientDigits
  /-- The input cannot be displayed. -/
  | NotValidChar
deriving DecidableEq

/-- The index of a segment (`Index` in the source). -/
inductive Index where
  /-- First digit. -/
  | One
  /-- Second digit. -/
  | Two
  /-- Third digit. -/
  | Three
  /-- Fourth digit. -/
  | Four
deriving DecidableEq

/-- `impl From<Index> for u8`. -/
def Index.toNat : Index → Nat
  | .One => 0
  | .Two => 1
  | .Three => 2
  | .Four => 3

/-- `impl From<u8> for Index`; `none` models the `panic!("Invalid index > 3")`
arm. -/
def Index.fromNat : Nat → Option Index
  | 0 => some .One
  | 1 => some .Two
  | 2 => some .Three
  | 3 => some .Four
  | _ => none

/-- `const MINUS_SIGN: u8 = 0x40`. -/
def MINUS_SIGN : Nat := 0x40

/-- `const DOT_BIT: u8 = 7`. -/
def DOT_BIT : Nat := 7

/-- `const COLON_BIT: u8 = 1`. -/
def COLON_BIT : Nat := 1

/-- `set_bit`: address bit `bit` (0..15) of physical slot `index` as row
`index*2` (bit < 8) or `index*2 + 1` (bit >= 8), per-row mask `1 << (bit % 8)`,
and write it.  The `% 16` is the 4-bit `DisplayDataAddress::from_bits_truncate`. -/
def set_bit (buf : Buffer) (index bit : Nat) (isOn : Bool) : Buffer :=
  writeCell buf ((if bit < 8 then index * 2 else index * 2 + 1) % 16) (1 <<< (bit % 8)) isOn

/-- The (row, per-row bit) address that `set_bit` writes. -/
def set_bit_addr (index bit : Nat) : Nat × Nat :=
  ((if bit < 8 then index * 2 else index * 2 + 1) % 16, bit % 8)

/-- The colon-compensation shift applied by `update_bits` and
`update_buffer_with_dot`: `if index > Index::Two { u8::from(index) + 1 } else
{ u8::from(index) }`. -/
def shiftedPos (index : Index) : Nat :=
  if 1 < Index.toNat index then Index.toNat index + 1 else Index.toNat index

/-- The colon-compensation shift on a raw logical index 0-3. -/
def slotOf (n : Nat) : Nat := if 1 < n then n + 1 else n

/-- `update_bits`: apply the colon-compensation shift, then write each of the
8 bits of the pattern through `set_bit`. -/
def update_bits (buf : Buffer) (index : Index) (bits : Nat) : Buffer :=
  (List.range 8).foldl
    (fun b i => set_bit b (shiftedPos index) i (((bits >>> i) &&& 1) == 1)) buf

/-- The (row, per-row bit) addresses touched by one `update_bits` call. -/
def update_bits_addrs (index : Index) : List (Nat × Nat) :=
  (List.range 8).map (fun i => set_bit_addr (shiftedPos index) i)

/-- Modelled from the spec: the segment font table (`fonts.rs` of the
repository, referenced by `mod fonts`, is not among the provided sources).
The spec fixes the entries for 0, 9, 0xA and 0xB literally
(`0 → 0b0011_1111`, `9 → 0b0110_1111`, `A → 0b0111_0111`, `B → 0b0111_1100`)
and reserves bit 7 of every pattern for the decimal point; the remaining
entries are the standard 7-segment hex font consistent with those values. -/
def HEX_NUMBER_FONT_TABLE : List Nat :=
  [0x3F, 0x06, 0x5B, 0x4F, 0x66, 0x6D, 0x7D, 0x07,
   0x7F, 0x6F, 0x77, 0x7C, 0x39, 0x5E, 0x79, 0x71]

/-- `update_buffer_with_digit`; `none` models the
`assert!(value < HEX_NUMBER_FONT_TABLE.len())` panic. -/
def update_buffer_with_digit (buf : Buffer) (index : Index) (value : Nat) : Option Buffer :=
  if value < 16 then some (update_bits buf index (HEX_NUMBER_FONT_TABLE.getD value 0)) else none

/-- `update_buffer_with_dot`: single `set_bit` at `DOT_BIT` of the shifted
slot. -/
def update_buffer_with_dot (buf : Buffer) (index : Index) (dot_on : Bool) : Buffer :=
  set_bit buf (shiftedPos index) DOT_BIT dot_on

/-- `update_buffer_with_colon`: single `set_bit` at address 2, `COLON_BIT`;
no shift is applied. -/
def update_buffer_with_colon (buf : Buffer) (colon_on : Bool) : Buffer :=
  set_bit buf 2 COLON_BIT colon_on

/-- `AsciiChar::is_ascii_digit` on the underlying byte. -/
def is_ascii_digit (c : Nat) : Bool := 48 ≤ c && c ≤ 57

/-- `AsciiChar::is_ascii_hexdigit` on the underlying byte. -/
def is_ascii_hexdigit (c : Nat) : Bool :=
  is_ascii_digit c || (65 ≤ c && c ≤ 70) || (97 ≤ c && c ≤ 102)

/-- `AsciiChar::to_ascii_uppercase` on the underlying byte. -/
def to_ascii_uppercase (c : Nat) : Nat := if 97 ≤ c && c ≤ 122 then c - 32 else c

/-- `update_buffer_with_char`.  The result pairs the returned
`Result<(), Error>` with the buffer after the call; `none` models the
`assert!` panic (provably unreachable). -/
def update_buffer_with_char (buf : Buffer) (index : Index) (c : Nat) :
    Option (Except Error Unit × Buffer) :=
  if is_ascii_hexdigit c then
    let val := if is_ascii_digit c then c - 48 else 10 + (to_ascii_uppercase c - 65)
    if val < 16 then some (Except.ok (), update_bits buf index (HEX_NUMBER_FONT_TABLE.getD val 0))
    else none
  else if c = 45 then some (Except.ok (), update_bits buf index MINUS_SIGN)
  else some (Except.error Error.NotValidChar, buf)

/-- The `i8 -> u8` reinterpreting cast (two's complement). -/
def toU8 (p : Int) : Nat := (p % 256).toNat

/-- The Rust `f32 -> u32` cast: truncate toward zero and saturate to
`[0, 2^32 - 1]`.  On the nonnegative arguments the engine produces this is
`⌊x⌋` clamped. -/
def ratToU32 (x : ℚ) : Nat := min (Int.toNat ⌊x⌋) (2 ^ 32 - 1)

/-- The sign-flip of step 2: `value *= -1` when negative. -/
def absValue (value : ℚ) : ℚ := if value < 0 then -value else value

/-- Available digits: `4 - index`, minus one reserved for the sign when the
value is negative. -/
def numDigits (i : Nat) (value : ℚ) : Nat := if value < 0 then 4 - i - 1 else 4 - i

/-- `to_int_factor = base.pow(fractional_digits) as f32`. -/
def initFactor (base fd : Nat) : ℚ := (base : ℚ) ^ fd

/-- The mutable state of the fractional-digit reduction loop:
`fractional_digits` (u8, wrapping), `to_int_factor` (f32, exact here) and
`display_number` (u32). -/
structure ReduceState where
  /-- `fractional_digits` (u8, wrapping). -/
  fd : Nat
  /-- `to_int_factor`. -/
  factor : ℚ
  /-- `display_number`. -/
  dispNum : Nat
deriving DecidableEq

/-- The loop state just before the `while display_number >= too_big` loop. -/
def initState (value : ℚ) (fd base : Nat) : ReduceState :=
  { fd := fd % 256
    factor := initFactor base fd
    dispNum := ratToU32 (absValue value * initFactor base fd + 1/2) }

/-- One iteration of the reduction loop: `fractional_digits -= 1` (u8 wrap),
`to_int_factor /= basef`, recompute `display_number`. -/
def reduceStep (value : ℚ) (base : Nat) (st : ReduceState) : ReduceState :=
  { fd := (st.fd + 255) % 256
    factor := st.factor / (base : ℚ)
    dispNum := ratToU32 (value * (st.factor / (base : ℚ)) + 1/2) }

/-- The `while display_number >= too_big` loop, with fuel. -/
def reduceLoop (fuel : Nat) (value : ℚ) (base tooBig : Nat) (st : ReduceState) :
    Option ReduceState :=
  match fuel with
  | 0 => none
  | fuel + 1 =>
    if tooBig ≤ st.dispNum then reduceLoop fuel value base tooBig (reduceStep value base st)
    else some st

/-- The digit-emission loop (`while display_number != 0 || i <= fractional_digits`),
with fuel.  `none` models a panic inside the loop (out-of-range `Index::from`
or font-table `assert!`) or fuel exhaustion.  Returns the final `display_pos`
and buffer. -/
def digitLoop (fuel : Nat) (base i fd : Nat) (dispNum cnt : Nat) (pos : Int) (buf : Buffer) :
    Option (Int × Buffer) :=
  match fuel with
  | 0 => none
  | fuel + 1 =>
    if dispNum ≠ 0 ∨ cnt ≤ fd then
      match Index.fromNat ((i + toU8 pos) % 256) with
      | none => none
      | some digit_index =>
        match update_buffer_with_digit buf digit_index ((dispNum % base) % 256) with
        | none => none
        | some b1 =>
          let b2 := if fd ≠ 0 ∧ cnt = fd then update_buffer_with_dot b1 digit_index true else b1
          digitLoop fuel base i fd (dispNum / base) (cnt + 1) (pos - 1) b2
    else some (pos, buf)

/-- The trailing `while display_pos >= 0` blanking loop, with fuel. -/
def blankLoop (fuel : Nat) (i : Nat) (buf : Buffer) (pos : Int) : Option Buffer :=
  match fuel with
  | 0 => none
  | fuel + 1 =>
    if 0 ≤ pos then
      match Index.fromNat ((i + toU8 pos) % 256) with
      | none => none
      | some idx => blankLoop fuel i (update_bits buf idx 0) (pos - 1)
    else some buf

/-- `update_buffer_with_float`.  The result pairs the returned
`Result<(), Error>` with the buffer after the call; `none` models a panic or
fuel exhaustion of a `while` loop. -/
def update_buffer_with_float (fuel : Nat) (buf : Buffer) (index : Index) (value : ℚ)
    (fractional_digits base : Nat) : Option (Except Error Unit × Buffer) :=
  let i := Index.toNat index
  match reduceLoop fuel (absValue value) base (base ^ numDigits i value)
      (initState value fractional_digits base) with
  | none => none
  | some st =>
    if st.factor < 1 then some (Except.error Error.InsufficientDigits, buf)
    else
      let display_pos : Int := 3 - (i : Int)
      let first : Option (Int × Buffer) :=
        if st.dispNum = 0 then
          match Index.fromNat ((i + toU8 display_pos) % 256) with
          | none => none
          | some di =>
            match update_buffer_with_digit buf di 0 with
            | none => none
            | some b => some (display_pos - 1, b)
        else digitLoop fuel base i st.fd st.dispNum 0 display_pos buf
      match first with
      | none => none
      | some (pos, buf1) =>
        let second : Option (Int × Buffer) :=
          if value < 0 then
            match Index.fromNat ((i + toU8 pos) % 256) with
            | none => none
            | some mi => some (pos - 1, update_bits buf1 mi MINUS_SIGN)
          else some (pos, buf1)
        match second with
        | none => none
        | some (pos2, buf2) =>
          (blankLoop fuel i buf2 pos2).map (fun b => (Except.ok (), b))

/-! ## Bit-level semantics of the buffer operations -/

lemma bit_cond_eq (bits i : Nat) : (((bits >>> i) &&& 1) == 1) = Nat.testBit bits i := by
  rw [Nat.testBit_to_div_mod, Nat.shiftRight_eq_div_pow, Nat.and_one_is_mod]
  by_cases h : bits / 2 ^ i % 2 = 1 <;> simp [h]

lemma shiftedPos_le (idx : Index) : shiftedPos idx ≤ 4 := by
  cases idx <;> simp [shiftedPos, Index.toNat]

lemma shiftedPos_ne_two (idx : Index) : shiftedPos idx ≠ 2 := by
  cases idx <;> simp [shiftedPos, Index.toNat]

lemma testBit_set_bit (buf : Buffer) (p i : Nat) (o : Bool) (r b : Nat)
    (hi : i < 8) (hb : b < 8) (hp : p ≤ 4) :
    Nat.testBit ((set_bit buf p i o) r) b =
      if r = p * 2 ∧ b = i then o else Nat.testBit (buf r) b := by
  have hrow : ((if i < 8 then p * 2 else p * 2 + 1) % 16) = p * 2 := by
    rw [if_pos hi]; exact Nat.mod_eq_of_lt (by omega)
  have hmask : (1 <<< (i % 8)) = 2 ^ i := by
    rw [Nat.mod_eq_of_lt hi, Nat.shiftLeft_eq, one_mul]
  simp only [set_bit, writeCell, hrow, hmask]
  by_cases hr : r = p * 2
  · subst hr
    simp only [if_pos rfl, if_true, true_and]
    cases o with
    | true =>
      simp only [if_pos rfl, if_true]
      rw [Nat.testBit_or, Nat.testBit_two_pow]
      by_cases hbi : b = i
      · subst hbi; simp
      · simp [hbi, Ne.symm hbi]
    | false =>
      simp only [Bool.false_eq_true, if_false, if_true]
      have h255 : (255 : Nat) = 2 ^ 8 - 1 := by norm_num
      rw [Nat.testBit_and, Nat.testBit_xor, h255, Nat.testBit_two_pow_sub_one,
        Nat.testBit_two_pow]
      by_cases hbi : b = i
      · subst hbi; simp [hb]
      · simp [hbi, Ne.symm hbi, hb]
  · simp [hr]

lemma set_bit_other_row (buf : Buffer) (p i : Nat) (o : Bool) (r : Nat)
    (hr : r ≠ (if i < 8 then p * 2 else p * 2 + 1) % 16) :
    (set_bit buf p i o) r = buf r := by
  simp only [set_bit, writeCell]
  rw [if_neg hr]

lemma update_bits_unfold (buf : Buffer) (idx : Index) (bits : Nat) :
    update_bits buf idx bits =
      set_bit (set_bit (set_bit (set_bit (set_bit (set_bit (set_bit (set_bit buf
        (shiftedPos idx) 0 (((bits >>> 0) &&& 1) == 1))
        (shiftedPos idx) 1 (((bits >>> 1) &&& 1) == 1))
        (shiftedPos idx) 2 (((bits >>> 2) &&& 1) == 1))
        (shiftedPos idx) 3 (((bits >>> 3) &&& 1) == 1))
        (shiftedPos idx) 4 (((bits >>> 4) &&& 1) == 1))
        (shiftedPos idx) 5 (((bits >>> 5) &&& 1) == 1))
        (shiftedPos idx) 6 (((bits >>> 6) &&& 1) == 1))
        (shiftedPos idx) 7 (((bits >>> 7) &&& 1) == 1) := rfl

lemma testBit_update_bits (buf : Buffer) (idx : Index) (bits : Nat) (r b : Nat) (hb : b < 8) :
    Nat.testBit ((update_bits buf idx bits) r) b =
      if r = shiftedPos idx * 2 then Nat.testBit bits b else Nat.testBit (buf r) b := by
  have hp := shiftedPos_le idx
  rw [update_bits_unfold]
  rw [testBit_set_bit _ _ _ _ _ _ (by omega) hb hp]
  rw [testBit_set_bit _ _ _ _ _ _ (by omega) hb hp]
  rw [testBit_set_bit _ _ _ _ _ _ (by omega) hb hp]
  rw [testBit_set_bit _ _ _ _ _ _ (by omega) hb hp]
  rw [testBit_set_bit _ _ _ _ _ _ (by omega) hb hp]
  rw [testBit_set_bit _ _ _ _ _ _ (by omega) hb hp]
  rw [testBit_set_bit _ _ _ _ _ _ (by omega) hb hp]
  rw [testBit_set_bit _ _ _ _ _ _ (by omega) hb hp]
  by_cases hr : r = shiftedPos idx * 2
  · simp only [hr, true_and, if_pos rfl, bit_cond_eq]
    interval_cases b <;> simp
  · simp [hr]

lemma update_bits_other_row (buf : Buffer) (idx : Index) (bits : Nat) (r : Nat)
    (hr : r ≠ shiftedPos idx * 2) :
    (update_bits buf idx bits) r = buf r := by
  have hp := shiftedPos_le idx
  have hrow : ∀ i : Nat, i < 8 →
      r ≠ (if i < 8 then shiftedPos idx * 2 else shiftedPos idx * 2 + 1) % 16 := by
    intro i hi
    rw [if_pos hi, Nat.mod_eq_of_lt (by omega)]
    exact hr
  rw [update_bits_unfold]
  rw [set_bit_other_row _ _ _ _ _ (hrow 7 (by omega))]
  rw [set_bit_other_row _ _ _ _ _ (hrow 6 (by omega))]
  rw [set_bit_other_row _ _ _ _ _ (hrow 5 (by omega))]
  rw [set_bit_other_row _ _ _ _ _ (hrow 4 (by omega))]
  rw [set_bit_other_row _ _ _ _ _ (hrow 3 (by omega))]
  rw [set_bit_other_row _ _ _ _ _ (hrow 2 (by omega))]
  rw [set_bit_other_row _ _ _ _ _ (hrow 1 (by omega))]
  rw [set_bit_other_row _ _ _ _ _ (hrow 0 (by omega))]

lemma set_bit7_false_high (buf : Buffer) (p : Nat) (hp : p ≤ 4) (j : Nat) (hj : 8 ≤ j) :
    Nat.testBit ((set_bit buf p 7 false) (p * 2)) j = false := by
  have hrow : ((if (7:Nat) < 8 then p * 2 else p * 2 + 1) % 16) = p * 2 := by
    rw [if_pos (by omega)]; exact Nat.mod_eq_of_lt (by omega)
  have hmask : ((255 : Nat) ^^^ (1 <<< (7 % 8))) = 127 := by decide
  simp only [set_bit, writeCell, hrow, if_pos rfl, if_true, Bool.false_eq_true, if_false, hmask]
  rw [Nat.testBit_and]
  have h127 : Nat.testBit 127 j = false := Nat.testBit_lt_two_pow (by
    calc (127 : Nat) < 2 ^ 8 := by norm_num
    _ ≤ 2 ^ j := Nat.pow_le_pow_right (by norm_num) hj)
  rw [h127, Bool.and_false]

lemma update_bits_row (buf : Buffer) (idx : Index) (bits : Nat) (hbits : bits < 128) :
    (update_bits buf idx bits) (shiftedPos idx * 2) = bits := by
  have hp := shiftedPos_le idx
  apply Nat.eq_of_testBit_eq
  intro j
  by_cases hj : j < 8
  · rw [testBit_update_bits _ _ _ _ _ hj, if_pos rfl]
  · have h7 : Nat.testBit bits 7 = false := Nat.testBit_lt_two_pow (by omega)
    have hcond : (((bits >>> 7) &&& 1) == 1) = false := by rw [bit_cond_eq]; exact h7
    rw [update_bits_unfold, hcond]
    rw [set_bit7_false_high _ _ hp j (by omega)]
    exact (Nat.testBit_lt_two_pow (by
      calc bits < 2 ^ 8 := by omega
      _ ≤ 2 ^ j := Nat.pow_le_pow_right (by norm_num) (by omega))).symm

/-! ## Further addressing lemmas -/

lemma testBit_set_bit_general (buf : Buffer) (p bit : Nat) (o : Bool) (r b : Nat)
    (hbit : bit < 16) (hb : b < 8) (hp : p ≤ 4) :
    Nat.testBit ((set_bit buf p bit o) r) b =
      if r = p * 2 + (if bit < 8 then 0 else 1) ∧ b = bit % 8 then o
      else Nat.testBit (buf r) b := by
  by_cases hbi : bit < 8
  · rw [testBit_set_bit buf p bit o r b hbi hb hp]
    simp [hbi, Nat.mod_eq_of_lt hbi]
  · have hrow2 : (p * 2 + 1) % 16 = p * 2 + 1 := Nat.mod_eq_of_lt (by omega)
    have hm8 : bit % 8 < 8 := Nat.mod_lt _ (by omega)
    have hmask : (1 <<< (bit % 8)) = 2 ^ (bit % 8) := by rw [Nat.shiftLeft_eq, one_mul]
    simp only [set_bit, writeCell, hmask, if_neg hbi, hrow2]
    by_cases hr : r = p * 2 + 1
    · subst hr
      simp only [if_pos rfl, if_true, true_and]
      cases o with
      | true =>
        simp only [if_pos rfl, if_true]
        rw [Nat.testBit_or, Nat.testBit_two_pow]
        by_cases hbb : b = bit % 8
        · subst hbb; simp
        · simp [hbb, Ne.symm hbb]
      | false =>
        simp only [Bool.false_eq_true, if_false, if_true]
        have h255 : (255 : Nat) = 2 ^ 8 - 1 := by norm_num
        rw [Nat.testBit_and, Nat.testBit_xor, h255, Nat.testBit_two_pow_sub_one,
          Nat.testBit_two_pow]
        by_cases hbb : b = bit % 8
        · subst hbb; simp [hb]
        · simp [hbb, Ne.symm hbb, hb]
    · simp [hr]

lemma dot_row_true (buf : Buffer) (idx : Index) :
    (update_buffer_with_dot buf idx true) (shiftedPos idx * 2)
      = buf (shiftedPos idx * 2) ||| 128 := by
  have hp := shiftedPos_le idx
  have hrow : ((if DOT_BIT < 8 then shiftedPos idx * 2 else shiftedPos idx * 2 + 1) % 16)
      = shiftedPos idx * 2 := by
    rw [if_pos (by norm_num [DOT_BIT])]; exact Nat.mod_eq_of_lt (by omega)
  have hmask : (1 <<< (DOT_BIT % 8)) = 128 := by decide
  simp only [update_buffer_with_dot, set_bit, writeCell, hrow, hmask, if_pos rfl, if_true]

lemma dot_other_row (buf : Buffer) (idx : Index) (o : Bool) (r : Nat)
    (hr : r ≠ shiftedPos idx * 2) :
    (update_buffer_with_dot buf idx o) r = buf r := by
  have hp := shiftedPos_le idx
  apply set_bit_other_row
  rw [if_pos (by norm_num [DOT_BIT])]
  rw [Nat.mod_eq_of_lt (by omega)]
  exact hr

lemma mem_update_bits_addrs (idx : Index) (r b : Nat) :
    ((r, b) ∈ update_bits_addrs idx) ↔ (r = shiftedPos idx * 2 ∧ b < 8) := by
  have hp := shiftedPos_le idx
  simp only [update_bits_addrs, List.mem_map, List.mem_range]
  constructor
  · rintro ⟨i, hi, heq⟩
    have heq2 : set_bit_addr (shiftedPos idx) i = (shiftedPos idx * 2, i) := by
      simp only [set_bit_addr, if_pos hi]
      rw [Nat.mod_eq_of_lt (by omega), Nat.mod_eq_of_lt hi]
    rw [heq2] at heq
    cases heq
    exact ⟨rfl, hi⟩
  · rintro ⟨hr, hb⟩
    refine ⟨b, hb, ?_⟩
    simp only [set_bit_addr, if_pos hb]
    rw [Nat.mod_eq_of_lt (by omega), Nat.mod_eq_of_lt hb, hr]

/-! ## Claims C5 and C6 -/

/-- Claim C5: for every physical slot 0-4 and bit position 0-15, `set_bit`
addresses row `slot*2` when `bit < 8` and `slot*2 + 1` when `bit >= 8`, at
per-row bit `bit % 8`, writes exactly that single buffer bit to the requested
value, and has no error conditions (it is a total function). -/
theorem claim5_set_bit_addressing (buf : Buffer) (slot bit : Nat) (isOn : Bool)
    (hslot : slot ≤ 4) (hbit : bit < 16) (r b : Nat) (hb : b < 8) :
    Nat.testBit ((set_bit buf slot bit isOn) r) b =
      if r = slot * 2 + (if bit < 8 then 0 else 1) ∧ b = bit % 8 then isOn
      else Nat.testBit (buf r) b :=
  testBit_set_bit_general buf slot bit isOn r b hbit hb hslot

/-- Witness for C5 at slot 4, bit 15: the write lands on row 9, per-row bit 7. -/
theorem claim5_witness :
    Nat.testBit ((set_bit (fun _ => 0) 4 15 true) 9) 7 = true := by
  rw [claim5_set_bit_addressing (fun _ => 0) 4 15 true (by omega) (by omega) 9 7 (by omega)]
  norm_num

/-- Claim C6: logical digit indices 0 and 1 map to physical slots 0 and 1,
logical 2 and 3 to physical slots 3 and 4 (slot 2 skipped); every digit and
dot write addresses only the shifted slot, while the colon is always written
at physical slot 2 (row 4), bit 1, with no shift applied. -/
theorem claim6_physical_addressing :
    (shiftedPos Index.One = 0 ∧ shiftedPos Index.Two = 1 ∧
     shiftedPos Index.Three = 3 ∧ shiftedPos Index.Four = 4) ∧
    (∀ buf isOn r b, b < 8 →
      Nat.testBit ((update_buffer_with_colon buf isOn) r) b =
        if r = 2 * 2 ∧ b = COLON_BIT then isOn else Nat.testBit (buf r) b) ∧
    (∀ buf idx dotOn r b, b < 8 →
      Nat.testBit ((update_buffer_with_dot buf idx dotOn) r) b =
        if r = shiftedPos idx * 2 ∧ b = DOT_BIT then dotOn else Nat.testBit (buf r) b) ∧
    (∀ buf idx bits r b, b < 8 →
      Nat.testBit ((update_bits buf idx bits) r) b =
        if r = shiftedPos idx * 2 then Nat.testBit bits b else Nat.testBit (buf r) b) := by
  refine ⟨⟨rfl, rfl, rfl, rfl⟩, ?_, ?_, ?_⟩
  · intro buf isOn r b hb
    rw [update_buffer_with_colon, testBit_set_bit buf 2 COLON_BIT isOn r b (by norm_num [COLON_BIT]) hb (by omega)]
  · intro buf idx dotOn r b hb
    rw [update_buffer_with_dot, testBit_set_bit buf (shiftedPos idx) DOT_BIT dotOn r b (by norm_num [DOT_BIT]) hb (shiftedPos_le idx)]
  · intro buf idx bits r b hb
    exact testBit_update_bits buf idx bits r b hb

/-- Witness for C6: the colon write lands on row 4 bit 1, a dot at
`Index::Three` lands on row 6 bit 7. -/
theorem claim6_witness :
    Nat.testBit ((update_buffer_with_colon (fun _ => 0) true) 4) 1 = true ∧
    Nat.testBit ((update_buffer_with_dot (fun _ => 0) Index.Three true) 6) 7 = true := by
  have h := claim6_physical_addressing
  constructor
  · rw [h.2.1 (fun _ => 0) true 4 1 (by omega)]
    norm_num [COLON_BIT]
  · rw [h.2.2.1 (fun _ => 0) Index.Three true 6 7 (by omega)]
    norm_num [DOT_BIT, shiftedPos, Index.toNat]

/-! ## Claim C3 -/

/-- Claim C3 counterexample: a single digit update issues 8 write-cell calls,
not 16; in particular it touches 8 distinct addresses (so not 16), and the
digit's high row (row 1 for `Index::One`) is left untouched even by the
all-zero pattern, which a 16-bit refresh would have cleared. -/
theorem claim3_counterexample :
    (update_bits_addrs Index.One).length = 8 ∧
    ¬ (update_bits_addrs Index.One).dedup.length = 16 ∧
    update_bits (fun _ => 255) Index.One 0 1 = 255 := by
  refine ⟨by decide, by decide, ?_⟩
  rw [update_bits_other_row (fun _ => 255) Index.One 0 1 (by decide)]

/-- Claim C3, amended: for every digit index and pattern, a single digit
update (`update_bits`, as called by `update_buffer_with_digit`) touches
exactly 8 distinct (row, bit) addresses — one write per bit of the 8-bit
pattern, covering bits 0-7 of the digit's (shifted) slot row — writing each
addressed bit to the corresponding pattern bit and leaving every other
buffer bit unchanged. -/
theorem claim3_eight_addresses (idx : Index) (bits : Nat) :
    (update_bits_addrs idx).Nodup ∧ (update_bits_addrs idx).length = 8 ∧
    (∀ buf r b, b < 8 →
      (((r, b) ∈ update_bits_addrs idx →
          Nat.testBit ((update_bits buf idx bits) r) b = Nat.testBit bits b) ∧
       ((r, b) ∉ update_bits_addrs idx →
          Nat.testBit ((update_bits buf idx bits) r) b = Nat.testBit (buf r) b))) := by
  refine ⟨by cases idx <;> decide, by cases idx <;> decide, ?_⟩
  intro buf r b hb
  constructor
  · intro hmem
    have hr := ((mem_update_bits_addrs idx r b).mp hmem).1
    rw [testBit_update_bits buf idx bits r b hb, if_pos hr]
  · intro hmem
    have hr : r ≠ shiftedPos idx * 2 := by
      intro hcontra
      exact hmem ((mem_update_bits_addrs idx r b).mpr ⟨hcontra, hb⟩)
    rw [testBit_update_bits buf idx bits r b hb, if_neg hr]

/-- Witness for the amended C3: writing pattern 255 to `Index::Two` sets bit 3
of row 2, and address (2, 3) is among the 8 touched addresses. -/
theorem claim3_witness :
    ((2, 3) ∈ update_bits_addrs Index.Two) ∧
    Nat.testBit ((update_bits (fun _ => 0) Index.Two 255) 2) 3 = true := by
  refine ⟨by decide, ?_⟩
  rw [((claim3_eight_addresses Index.Two 255).2.2 (fun _ => 0) 2 3 (by omega)).1 (by decide)]
  decide

/-! ## Claim C7 -/

/-- Claim C7: `update_buffer_with_char` succeeds exactly for ASCII hex digits
(case-insensitively) and the minus sign; every other character yields
`Err(NotValidChar)` with the buffer untouched, and lowercase letters are
drawn identically to their uppercase forms. -/
theorem claim7_char_validation (buf : Buffer) (idx : Index) (c : Nat) :
    ((is_ascii_hexdigit c = true ∨ c = 45) →
      ∃ B, update_buffer_with_char buf idx c = some (Except.ok (), B)) ∧
    (¬ (is_ascii_hexdigit c = true ∨ c = 45) →
      update_buffer_with_char buf idx c = some (Except.error Error.NotValidChar, buf)) ∧
    (97 ≤ c → c ≤ 102 → update_buffer_with_char buf idx c = update_buffer_with_char buf idx (c - 32)) := by
  refine ⟨?_, ?_, ?_⟩
  · intro h
    by_cases hhex : is_ascii_hexdigit c = true
    · have hval : (if is_ascii_digit c then c - 48 else 10 + (to_ascii_uppercase c - 65)) < 16 := by
        simp only [is_ascii_hexdigit, is_ascii_digit, Bool.or_eq_true, Bool.and_eq_true,
          decide_eq_true_eq] at hhex
        simp only [is_ascii_digit, to_ascii_uppercase]
        split_ifs with h2 h3
        · simp only [Bool.and_eq_true, decide_eq_true_eq] at h2; omega
        · simp only [Bool.and_eq_true, decide_eq_true_eq] at h2 h3; omega
        · simp only [Bool.and_eq_true, decide_eq_true_eq] at h2 h3; omega
      unfold update_buffer_with_char
      rw [if_pos hhex, if_pos hval]
      exact ⟨_, rfl⟩
    · have hminus : c = 45 := by tauto
      subst hminus
      exact ⟨_, rfl⟩
  · intro h
    push_neg at h
    obtain ⟨h1, h2⟩ := h
    unfold update_buffer_with_char
    rw [if_neg (by simpa using h1), if_neg h2]
  · intro h1 h2
    have e1 : is_ascii_hexdigit c = true := by
      simp only [is_ascii_hexdigit, is_ascii_digit, Bool.or_eq_true, Bool.and_eq_true,
        decide_eq_true_eq]
      omega
    have e2 : is_ascii_hexdigit (c - 32) = true := by
      simp only [is_ascii_hexdigit, is_ascii_digit, Bool.or_eq_true, Bool.and_eq_true,
        decide_eq_true_eq]
      omega
    unfold update_buffer_with_char
    rw [if_pos e1, if_pos e2]
    have v1 : (if is_ascii_digit c then c - 48 else 10 + (to_ascii_uppercase c - 65)) = c - 87 := by
      simp only [is_ascii_digit, to_ascii_uppercase]
      split_ifs with h3 h4
      · simp only [Bool.and_eq_true, decide_eq_true_eq] at h3; omega
      · simp only [Bool.and_eq_true, decide_eq_true_eq] at h3 h4; omega
      · simp only [Bool.and_eq_true, decide_eq_true_eq] at h3 h4; omega
    have v2 : (if is_ascii_digit (c - 32) then (c - 32) - 48
        else 10 + (to_ascii_uppercase (c - 32) - 65)) = c - 87 := by
      simp only [is_ascii_digit, to_ascii_uppercase]
      split_ifs with h3 h4
      · simp only [Bool.and_eq_true, decide_eq_true_eq] at h3; omega
      · simp only [Bool.and_eq_true, decide_eq_true_eq] at h3 h4; omega
      · simp only [Bool.and_eq_true, decide_eq_true_eq] at h3 h4; omega
    rw [v1, v2]

/-- Witness for C7: the letter g (byte 103) is rejected with `NotValidChar`
and the buffer is returned unchanged. -/
theorem claim7_witness :
    update_buffer_with_char (fun _ => 0) Index.One 103
      = some (Except.error Error.NotValidChar, (fun _ => 0)) :=
  (claim7_char_validation (fun _ => 0) Index.One 103).2.1 (by decide)

/-! ## Claim C8 -/

/-- Claim C8 counterexample: drawing a digit does alter the dot bit of its
slot.  After setting the dot of `Index::One` (row 0 bit 7 becomes 1), drawing
digit 0 there rewrites the whole row to the font pattern 0x3F, whose bit 7 is
0 — the dot bit has been cleared by the digit draw. -/
theorem claim8_counterexample :
    Nat.testBit ((update_buffer_with_dot (fun _ => 0) Index.One true) 0) 7 = true ∧
    Option.map (fun b => Nat.testBit (b 0) 7)
      (update_buffer_with_digit (update_buffer_with_dot (fun _ => 0) Index.One true) Index.One 0)
      = some false := by
  constructor <;> decide

/-- Claim C8, amended: the sequence dot-digit-dot leaves the digit's slot row
holding exactly the font pattern with the dot bit added, and touches no other
row (in particular the colon row is preserved); however a digit draw
overwrites — clears — the dot bit of its own slot, since every font pattern
has bit 7 unset, so the trailing dot write is what restores the dot. -/
theorem claim8_dot_digit_dot (buf : Buffer) (idx : Index) (v : Nat) (hv : v < 16) :
    ∃ B, update_buffer_with_digit (update_buffer_with_dot buf idx true) idx v = some B ∧
      Nat.testBit (B (shiftedPos idx * 2)) 7 = false ∧
      (update_buffer_with_dot B idx true) (shiftedPos idx * 2)
        = HEX_NUMBER_FONT_TABLE.getD v 0 ||| 128 ∧
      (∀ r, r ≠ shiftedPos idx * 2 → (update_buffer_with_dot B idx true) r = buf r) := by
  have hpat : HEX_NUMBER_FONT_TABLE.getD v 0 < 128 := by
    interval_cases v <;> decide
  refine ⟨update_bits (update_buffer_with_dot buf idx true) idx (HEX_NUMBER_FONT_TABLE.getD v 0),
    by rw [update_buffer_with_digit, if_pos hv], ?_, ?_, ?_⟩
  · rw [testBit_update_bits _ _ _ _ _ (by omega), if_pos rfl]
    exact Nat.testBit_lt_two_pow (by omega)
  · rw [dot_row_true, update_bits_row _ _ _ hpat]
  · intro r hr
    rw [dot_other_row _ _ _ _ hr, update_bits_other_row _ _ _ _ hr, dot_other_row _ _ _ _ hr]

/-- Witness for the amended C8 at `Index::Two`, digit 5, on the empty buffer. -/
theorem claim8_witness :
    ∃ B, update_buffer_with_digit (update_buffer_with_dot (fun _ => 0) Index.Two true) Index.Two 5
        = some B ∧
      Nat.testBit (B (shiftedPos Index.Two * 2)) 7 = false ∧
      (update_buffer_with_dot B Index.Two true) (shiftedPos Index.Two * 2)
        = HEX_NUMBER_FONT_TABLE.getD 5 0 ||| 128 ∧
      (∀ r, r ≠ shiftedPos Index.Two * 2 → (update_buffer_with_dot B Index.Two true) r = (fun _ => 0) r) :=
  claim8_dot_digit_dot (fun _ => 0) Index.Two 5 (by omega)

/-! ## Evaluation lemmas for the float engine -/

lemma ratToU32_eq (x : ℚ) (k : Nat) (h1 : (k : ℚ) ≤ x) (h2 : x < k + 1) (hk : k < 2 ^ 32) :
    ratToU32 x = k := by
  have hfloor : ⌊x⌋ = (k : Int) := by
    apply Int.floor_eq_iff.mpr
    constructor
    · exact_mod_cast h1
    · exact_mod_cast h2
  rw [ratToU32, hfloor]
  simp only [Int.toNat_natCast]
  omega

lemma reduceLoop_go (fuel : Nat) (v : ℚ) (b tb : Nat) (st : ReduceState)
    (hf : fuel ≠ 0) (h : tb ≤ st.dispNum) :
    reduceLoop fuel v b tb st = reduceLoop (fuel - 1) v b tb (reduceStep v b st) := by
  match fuel with
  | fuel + 1 => rw [reduceLoop, if_pos h]; rfl
  | 0 => exact absurd rfl hf

lemma reduceLoop_exit (fuel : Nat) (v : ℚ) (b tb : Nat) (st : ReduceState)
    (hf : fuel ≠ 0) (h : st.dispNum < tb) :
    reduceLoop fuel v b tb st = some st := by
  match fuel with
  | fuel + 1 => rw [reduceLoop, if_neg (by omega)]
  | 0 => exact absurd rfl hf

lemma blankLoop_go (fuel : Nat) (i : Nat) (buf : Buffer) (pos : Int) (idx : Index)
    (hf : fuel ≠ 0) (h : 0 ≤ pos) (hidx : Index.fromNat ((i + toU8 pos) % 256) = some idx) :
    blankLoop fuel i buf pos = blankLoop (fuel - 1) i (update_bits buf idx 0) (pos - 1) := by
  match fuel with
  | fuel + 1 => rw [blankLoop, if_pos h, hidx]; rfl
  | 0 => exact absurd rfl hf

lemma blankLoop_exit (fuel : Nat) (i : Nat) (buf : Buffer) (pos : Int)
    (hf : fuel ≠ 0) (h : ¬ 0 ≤ pos) :
    blankLoop fuel i buf pos = some buf := by
  match fuel with
  | fuel + 1 => rw [blankLoop, if_neg h]
  | 0 => exact absurd rfl hf

lemma shiftedPos_eq_slotOf (idx : Index) : shiftedPos idx = slotOf (Index.toNat idx) := by
  cases idx <;> rfl

lemma index_fromNat_le3 (n : Nat) (h : n ≤ 3) :
    ∃ idx, Index.fromNat n = some idx ∧ Index.toNat idx = n := by
  interval_cases n
  · exact ⟨Index.One, rfl, rfl⟩
  · exact ⟨Index.Two, rfl, rfl⟩
  · exact ⟨Index.Three, rfl, rfl⟩
  · exact ⟨Index.Four, rfl, rfl⟩

lemma toU8_nonneg (p : Int) (h0 : 0 ≤ p) (h1 : p < 256) : toU8 p = p.toNat := by
  rw [toU8, Int.emod_eq_of_lt h0 h1]

lemma addr_three (i : Nat) (hi : i ≤ 3) : (i + toU8 (3 - (i : Int))) % 256 = 3 := by
  interval_cases i <;> decide

lemma addr_two (i : Nat) (hi : i ≤ 3) : (i + toU8 (2 - (i : Int))) % 256 = 2 := by
  interval_cases i <;> decide

/-- Structure of the blanking loop: for a start position below the display
width it succeeds, zeroes exactly the slot rows of logical indices `i` to
`i + pos`, leaves every other row unchanged, and writes nothing but zeros. -/
lemma blankLoop_spec (fuel : Nat) (i : Nat) (buf : Buffer) (pos : Int)
    (hi : i ≤ 3) (hpos : pos ≤ 3 - (i : Int)) (hfuel : (pos + 1).toNat < fuel) :
    ∃ B, blankLoop fuel i buf pos = some B ∧
      (∀ q : Nat, i ≤ q → (q : Int) ≤ i + pos → B (slotOf q * 2) = 0) ∧
      (∀ r, (∀ q : Nat, i ≤ q → (q : Int) ≤ i + pos → r ≠ slotOf q * 2) → B r = buf r) ∧
      (∀ r, B r = buf r ∨ B r = 0) := by
  induction fuel generalizing buf pos with
  | zero => omega
  | succ fuel ih =>
    by_cases hneg : pos < 0
    · refine ⟨buf, blankLoop_exit _ _ _ _ (by omega) (by omega), ?_, ?_, ?_⟩
      · intro q hq1 hq2; omega
      · intro r _; rfl
      · intro r; exact Or.inl rfl
    · have h0 : 0 ≤ pos := by omega
      have hp3 : i + pos.toNat ≤ 3 := by omega
      obtain ⟨idx, hidx, hto⟩ := index_fromNat_le3 (i + pos.toNat) hp3
      have haddr : ((i + toU8 pos) % 256) = i + pos.toNat := by
        rw [toU8_nonneg pos h0 (by omega)]
        exact Nat.mod_eq_of_lt (by omega)
      have hstep := blankLoop_go (fuel + 1) i buf pos idx (by omega) h0 (by rw [haddr]; exact hidx)
      simp only [Nat.add_sub_cancel] at hstep
      obtain ⟨B, hB, hzero, hother, hall⟩ :=
        ih (update_bits buf idx 0) (pos - 1) (by omega) (by omega)
      refine ⟨B, by rw [hstep, hB], ?_, ?_, ?_⟩
      · intro q hq1 hq2
        by_cases hq : (q : Int) ≤ i + (pos - 1)
        · exact hzero q hq1 hq
        · have hq' : q = i + pos.toNat := by omega
          rw [hother]
          · subst hq'
            rw [← hto, ← shiftedPos_eq_slotOf]
            exact update_bits_row _ _ _ (by norm_num)
          · intro q2 hq2a hq2b
            have : q2 < q := by omega
            subst hq'
            rw [← hto, ← shiftedPos_eq_slotOf]
            intro hcontra
            have e1 : slotOf q2 * 2 = shiftedPos idx * 2 := hcontra.symm
            rw [shiftedPos_eq_slotOf, hto] at e1
            have : slotOf q2 = slotOf (i + pos.toNat) := by omega
            revert this
            unfold slotOf
            split_ifs <;> omega
      · intro r hr
        rw [hother r ?h1]
        case h1 =>
          intro q hq1 hq2
          exact hr q hq1 (by omega)
        apply update_bits_other_row
        rw [shiftedPos_eq_slotOf, hto]
        exact hr (i + pos.toNat) (by omega) (by omega)
      · intro r
        rcases hall r with h1 | h1
        · rw [h1]
          by_cases hr : r = shiftedPos idx * 2
          · right; rw [hr]; exact update_bits_row _ _ _ (by norm_num)
          · left; exact update_bits_other_row _ _ _ _ hr
        · right; exact h1

/-! ## Claim C4 -/

/-- Claim C4: whenever the fractional-digit reduction loop ends with
`to_int_factor < 1`, `update_buffer_with_float` returns
`Err(InsufficientDigits)` and performs no buffer mutation (the returned
buffer is the input buffer). -/
theorem claim4_factor_lt_one_errors (fuel : Nat) (buf : Buffer) (index : Index) (value : ℚ)
    (fd base : Nat) (st : ReduceState)
    (h : reduceLoop fuel (absValue value) base (base ^ numDigits (Index.toNat index) value)
        (initState value fd base) = some st)
    (hlt : st.factor < 1) :
    update_buffer_with_float fuel buf index value fd base
      = some (Except.error Error.InsufficientDigits, buf) := by
  simp only [update_buffer_with_float, h]
  rw [if_pos hlt]

/-- Witness for C4 at the spec's concrete instance
`(Index::One, 12345.0, 0, 10)`: one reduction iteration leaves
`to_int_factor = 1/10 < 1`, so the call fails and the buffer is untouched. -/
theorem claim4_witness :
    update_buffer_with_float 16 (fun _ => 0) Index.One 12345 0 10
      = some (Except.error Error.InsufficientDigits, (fun _ => 0)) := by
  have habs : absValue (12345 : ℚ) = 12345 := by norm_num [absValue]
  have hnum : numDigits (Index.toNat Index.One) (12345 : ℚ) = 4 := by
    norm_num [numDigits, Index.toNat]
  have hfac : initFactor 10 0 = 1 := by norm_num [initFactor]
  have hdisp0 : ratToU32 (absValue (12345:ℚ) * initFactor 10 0 + 1/2) = 12345 := by
    rw [habs, hfac]
    apply ratToU32_eq <;> norm_num
  have hinit : initState (12345:ℚ) 0 10 = ⟨0, 1, 12345⟩ := by
    rw [initState, hdisp0, hfac]
  have hstep : reduceStep (absValue (12345:ℚ)) 10 ⟨0, 1, 12345⟩ = ⟨255, 1/10, 1235⟩ := by
    rw [habs, reduceStep]
    simp only [ReduceState.mk.injEq]
    refine ⟨by norm_num, by push_cast; norm_num, ?_⟩
    rw [show (12345:ℚ) * ((1:ℚ) / ((10:Nat):ℚ)) + 1/2 = 1235 by push_cast; norm_num]
    apply ratToU32_eq <;> norm_num
  have hloop : reduceLoop 16 (absValue (12345:ℚ)) 10
      (10 ^ numDigits (Index.toNat Index.One) (12345:ℚ)) (initState (12345:ℚ) 0 10)
      = some ⟨255, 1/10, 1235⟩ := by
    rw [hnum, hinit, show (10:Nat)^4 = 10000 from by norm_num]
    rw [reduceLoop_go 16 _ _ _ _ (by norm_num) (by decide)]
    rw [hstep]
    exact reduceLoop_exit _ _ _ _ _ (by norm_num) (by decide)
  exact claim4_factor_lt_one_errors 16 (fun _ => 0) Index.One 12345 0 10
    ⟨255, 1/10, 1235⟩ hloop (by norm_num)

/-! ## Claim C2 -/

/-- Claim C2 (failing input): `update_buffer_with_float(Index::Four, -0.2, 0, 10)`
does not fail with `InsufficientDigits` — it returns `Ok` after drawing the
digit 0 at slot Four and the minus sign at `Index::Three`, i.e. to the left
of the requested start index (in a debug build the wrapped `u8` addition
panics instead).  The claim requires `Err(InsufficientDigits)` for every
negative value. -/
theorem claim2_negative_at_four_returns_ok :
    ∃ B, update_buffer_with_float 16 (fun _ => 0) Index.Four (-1/5 : ℚ) 0 10
        = some (Except.ok (), B) ∧ B 6 = MINUS_SIGN ∧ B 8 = 0x3F := by
  have habs : absValue (-1/5 : ℚ) = 1/5 := by norm_num [absValue]
  have hnum : numDigits (Index.toNat Index.Four) (-1/5 : ℚ) = 0 := by
    norm_num [numDigits, Index.toNat]
  have hfac : initFactor 10 0 = 1 := by norm_num [initFactor]
  have hdisp0 : ratToU32 (absValue (-1/5:ℚ) * initFactor 10 0 + 1/2) = 0 := by
    rw [habs, hfac]
    apply ratToU32_eq <;> norm_num
  have hinit : initState (-1/5:ℚ) 0 10 = ⟨0, 1, 0⟩ := by rw [initState, hdisp0, hfac]
  have hloop : reduceLoop 16 (absValue (-1/5:ℚ)) 10
      (10 ^ numDigits (Index.toNat Index.Four) (-1/5:ℚ)) (initState (-1/5:ℚ) 0 10)
      = some ⟨0, 1, 0⟩ := by
    rw [hnum, hinit, pow_zero]
    exact reduceLoop_exit _ _ _ _ _ (by norm_num) (by decide)
  have hneg : (-1/5 : ℚ) < 0 := by norm_num
  have hblank : ∀ b : Buffer, blankLoop 16 3 b (-2) = some b := fun b =>
    blankLoop_exit 16 3 b (-2) (by norm_num) (by norm_num)
  refine ⟨update_bits (update_bits (fun _ => 0) Index.Four (HEX_NUMBER_FONT_TABLE.getD 0 0))
      Index.Three MINUS_SIGN, ?_, ?_, ?_⟩
  · simp only [update_buffer_with_float, hloop]
    rw [if_neg (by norm_num)]
    simp only [Index.toNat, update_buffer_with_digit, Index.fromNat, toU8, if_pos hneg, hblank]
    rfl
  · have h6 : shiftedPos Index.Three * 2 = 6 := rfl
    rw [← h6]
    exact update_bits_row _ _ _ (by norm_num [MINUS_SIGN])
  · rw [update_bits_other_row _ _ _ _ (by decide)]
    have h8 : shiftedPos Index.Four * 2 = 8 := rfl
    rw [← h8]
    rw [update_bits_row _ _ _ (by decide)]
    decide

/-! ## Claim C10 -/

/-- Claim C10 (failing input): `update_buffer_with_float(Index::Four, 0.5, 1, 10)`
returns `Ok` but draws the fractional padding digit 0 and the decimal point
at `Index::Three` — physical row 6, which belongs to a logical index smaller
than the start index `Four` — leaving row 6 at 0b1011_1111 (pattern of 0
plus dot) and slot Four at the pattern of 5.  The claim requires that no
cell left of the start index is written on an `Ok` return. -/
theorem claim10_writes_left_of_start :
    ∃ B, update_buffer_with_float 16 (fun _ => 0) Index.Four (1/2 : ℚ) 1 10
        = some (Except.ok (), B) ∧ B 6 = 191 ∧ B 8 = 109 := by
  have habs : absValue (1/2 : ℚ) = 1/2 := by norm_num [absValue]
  have hnum : numDigits (Index.toNat Index.Four) (1/2 : ℚ) = 1 := by
    norm_num [numDigits, Index.toNat]
  have hfac : initFactor 10 1 = 10 := by norm_num [initFactor]
  have hdisp0 : ratToU32 (absValue (1/2:ℚ) * initFactor 10 1 + 1/2) = 5 := by
    rw [habs, hfac]
    apply ratToU32_eq <;> norm_num
  have hinit : initState (1/2:ℚ) 1 10 = ⟨1, 10, 5⟩ := by rw [initState, hdisp0, hfac]
  have hloop : reduceLoop 16 (absValue (1/2:ℚ)) 10
      (10 ^ numDigits (Index.toNat Index.Four) (1/2:ℚ)) (initState (1/2:ℚ) 1 10)
      = some ⟨1, 10, 5⟩ := by
    rw [hnum, hinit, pow_one]
    exact reduceLoop_exit _ _ _ _ _ (by norm_num) (by decide)
  refine ⟨update_buffer_with_dot
      (update_bits (update_bits (fun _ => 0) Index.Four (HEX_NUMBER_FONT_TABLE.getD 5 0))
        Index.Three (HEX_NUMBER_FONT_TABLE.getD 0 0)) Index.Three true, ?_, ?_, ?_⟩
  · simp only [update_buffer_with_float, hloop]
    rw [if_neg (by norm_num)]
    simp only [if_neg (show ¬ ((1/2 : ℚ) < 0) by norm_num)]
    rfl
  · have h6 : shiftedPos Index.Three * 2 = 6 := rfl
    rw [← h6, dot_row_true, update_bits_row _ _ _ (by decide)]
    decide
  · have h8 : shiftedPos Index.Four * 2 = 8 := rfl
    rw [dot_other_row _ _ _ _ (by decide), update_bits_other_row _ _ _ _ (by decide)]
    rw [← h8, update_bits_row _ _ _ (by decide)]
    decide

/-! ## Claim C1 -/

/-- Claim C1 (failing input): for
`update_buffer_with_float(Index::One, 0.5, 5, 10)` the step-5 fit check
passes (after one reduction the loop exits with `to_int_factor = 10000 ≥ 1`
and `display_number = 5000`), yet drawing does not complete: after emitting
four digits the fifth fractional-padding iteration computes the digit index
`(0 + 255) % 256 = 255`, `Index::from` panics (`none` here), and the call
aborts mid-draw instead of returning `Ok(())`. -/
theorem claim1_check_passes_yet_panics :
    reduceLoop 16 (absValue (1/2:ℚ)) 10
        (10 ^ numDigits (Index.toNat Index.One) (1/2:ℚ)) (initState (1/2:ℚ) 5 10)
      = some ⟨4, 10000, 5000⟩ ∧
    ¬ ((⟨4, 10000, 5000⟩ : ReduceState).factor < 1) ∧
    update_buffer_with_float 16 (fun _ => 0) Index.One (1/2 : ℚ) 5 10 = none := by
  have habs : absValue (1/2 : ℚ) = 1/2 := by norm_num [absValue]
  have hnum : numDigits (Index.toNat Index.One) (1/2 : ℚ) = 4 := by
    norm_num [numDigits, Index.toNat]
  have hfac : initFactor 10 5 = 100000 := by norm_num [initFactor]
  have hdisp0 : ratToU32 (absValue (1/2:ℚ) * initFactor 10 5 + 1/2) = 50000 := by
    rw [habs, hfac]
    apply ratToU32_eq <;> norm_num
  have hinit : initState (1/2:ℚ) 5 10 = ⟨5, 100000, 50000⟩ := by
    rw [initState, hdisp0, hfac]
  have hstep : reduceStep (absValue (1/2:ℚ)) 10 ⟨5, 100000, 50000⟩ = ⟨4, 10000, 5000⟩ := by
    rw [habs, reduceStep]
    simp only [ReduceState.mk.injEq]
    refine ⟨by norm_num, by push_cast; norm_num, ?_⟩
    rw [show (1/2:ℚ) * ((100000:ℚ) / ((10:Nat):ℚ)) + 1/2 = 10001/2 by push_cast; norm_num]
    apply ratToU32_eq <;> norm_num
  have hloop : reduceLoop 16 (absValue (1/2:ℚ)) 10
      (10 ^ numDigits (Index.toNat Index.One) (1/2:ℚ)) (initState (1/2:ℚ) 5 10)
      = some ⟨4, 10000, 5000⟩ := by
    rw [hnum, hinit, show (10:Nat)^4 = 10000 from by norm_num]
    rw [reduceLoop_go 16 _ _ _ _ (by norm_num) (by decide)]
    rw [hstep]
    exact reduceLoop_exit _ _ _ _ _ (by norm_num) (by decide)
  refine ⟨hloop, by norm_num, ?_⟩
  simp only [update_buffer_with_float, hloop]
  rw [if_neg (by norm_num)]
  rfl

/-! ## Claim C9 counterexample -/

/-- Claim C9 counterexample: for `update_buffer_with_float(Index::One, -0.3, 0, 10)`
the scaled value rounds to `display_number = 0`, and the call does NOT
merely emit a single 0 and blank everything to its left: it also draws the
minus pattern at `Index::Three` (row 6 ends as 0x40, not blank). -/
theorem claim9_counterexample :
    ∃ B, update_buffer_with_float 16 (fun _ => 0) Index.One (-3/10 : ℚ) 0 10
        = some (Except.ok (), B) ∧ B 6 = MINUS_SIGN ∧ B 6 ≠ 0 := by
  have habs : absValue (-3/10 : ℚ) = 3/10 := by norm_num [absValue]
  have hnum : numDigits (Index.toNat Index.One) (-3/10 : ℚ) = 3 := by
    norm_num [numDigits, Index.toNat]
  have hfac : initFactor 10 0 = 1 := by norm_num [initFactor]
  have hdisp0 : ratToU32 (absValue (-3/10:ℚ) * initFactor 10 0 + 1/2) = 0 := by
    rw [habs, hfac]
    apply ratToU32_eq <;> norm_num
  have hinit : initState (-3/10:ℚ) 0 10 = ⟨0, 1, 0⟩ := by rw [initState, hdisp0, hfac]
  have hloop : reduceLoop 16 (absValue (-3/10:ℚ)) 10
      (10 ^ numDigits (Index.toNat Index.One) (-3/10:ℚ)) (initState (-3/10:ℚ) 0 10)
      = some ⟨0, 1, 0⟩ := by
    rw [hnum, hinit, show (10:Nat)^3 = 1000 from by norm_num]
    exact reduceLoop_exit _ _ _ _ _ (by norm_num) (by decide)
  refine ⟨update_bits (update_bits (update_bits (update_bits (fun _ => 0)
      Index.Four (HEX_NUMBER_FONT_TABLE.getD 0 0)) Index.Three MINUS_SIGN)
      Index.Two 0) Index.One 0, ?_, ?_, ?_⟩
  · simp only [update_buffer_with_float, hloop]
    rw [if_neg (by norm_num)]
    simp only [if_pos (show (-3/10 : ℚ) < 0 by norm_num)]
    rfl
  · rw [update_bits_other_row _ _ _ _ (by decide), update_bits_other_row _ _ _ _ (by decide)]
    have h6 : shiftedPos Index.Three * 2 = 6 := rfl
    rw [← h6, update_bits_row _ _ _ (by norm_num [MINUS_SIGN])]
  · rw [update_bits_other_row _ _ _ _ (by decide), update_bits_other_row _ _ _ _ (by decide)]
    have h6 : shiftedPos Index.Three * 2 = 6 := rfl
    rw [← h6, update_bits_row _ _ _ (by norm_num [MINUS_SIGN])]
    norm_num [MINUS_SIGN]

/-! ## Claim C9 (amended) -/

lemma addr_two_of_three (i : Nat) (hi : i ≤ 3) :
    (i + toU8 (3 - (i : Int) - 1)) % 256 = 2 := by
  interval_cases i <;> decide

/-- Claim C9, amended: whenever the scaled rounded integer (`display_number`)
is zero at the start of digit emission, the call returns `Ok` having emitted
a single 0 digit at the rightmost slot (logical Four, physical row 8), with
no fractional zero-padding and no decimal point ever set; when the value was
negative the minus pattern is additionally drawn at `Index::Three` (physical
row 6) — even when the start index is Four, spilling left of it — and the
remaining slots from the start index up to logical index 1 (negative) or 2
(non-negative) are blanked; the colon rows 4 and 5 are untouched. -/
theorem claim9_zero_special_case (fuel : Nat) (buf : Buffer) (index : Index) (value : ℚ)
    (fd base : Nat) (st : ReduceState)
    (hfuel : 5 ≤ fuel)
    (h : reduceLoop fuel (absValue value) base (base ^ numDigits (Index.toNat index) value)
        (initState value fd base) = some st)
    (hge : ¬ st.factor < 1)
    (h0 : st.dispNum = 0) :
    ∃ B, update_buffer_with_float fuel buf index value fd base = some (Except.ok (), B) ∧
      B 8 = 0x3F ∧
      (value < 0 → B 6 = MINUS_SIGN) ∧
      (∀ q : Nat, Index.toNat index ≤ q → q ≤ (if value < 0 then 1 else 2) →
        B (slotOf q * 2) = 0) ∧
      B 4 = buf 4 ∧ B 5 = buf 5 ∧
      (∀ r, B r = buf r ∨ Nat.testBit (B r) 7 = false) := by
  have hi : Index.toNat index ≤ 3 := by cases index <;> decide
  have h63 : (update_buffer_with_digit buf Index.Four 0) = some (update_bits buf Index.Four 63) := rfl
  by_cases hneg : value < 0
  · -- negative value: digit 0 at Four, minus at Three, blanks up to logical 1
    obtain ⟨B, hB, hzero, hother, hall⟩ := blankLoop_spec fuel (Index.toNat index)
      (update_bits (update_bits buf Index.Four 63) Index.Three MINUS_SIGN)
      (3 - (Index.toNat index : Int) - 1 - 1) hi (by omega) (by omega)
    have hrows : ∀ q : Nat, Index.toNat index ≤ q →
        (q : Int) ≤ Index.toNat index + (3 - (Index.toNat index : Int) - 1 - 1) → q ≤ 1 := by
      intro q h1 h2; omega
    have hno : ∀ r : Nat, 3 ≤ r →
        (∀ q : Nat, Index.toNat index ≤ q →
          (q : Int) ≤ Index.toNat index + (3 - (Index.toNat index : Int) - 1 - 1) →
          r ≠ slotOf q * 2) := by
      intro r hr q h1 h2
      have hq1 : q ≤ 1 := hrows q h1 h2
      unfold slotOf
      split_ifs <;> omega
    refine ⟨B, ?_, ?_, ?_, ?_, ?_, ?_, ?_⟩
    · simp only [update_buffer_with_float, h]
      rw [if_neg hge, if_pos h0]
      rw [addr_three (Index.toNat index) hi]
      simp only [show Index.fromNat 3 = some Index.Four from rfl, h63]
      simp only [if_pos hneg]
      rw [addr_two_of_three (Index.toNat index) hi]
      simp only [show Index.fromNat 2 = some Index.Three from rfl]
      rw [hB]
      rfl
    · rw [hother 8 (hno 8 (by omega)),
        update_bits_other_row _ _ _ _ (by decide)]
      have h8 : shiftedPos Index.Four * 2 = 8 := rfl
      rw [← h8, update_bits_row _ _ _ (by decide)]
    · intro _
      rw [hother 6 (hno 6 (by omega))]
      have h6 : shiftedPos Index.Three * 2 = 6 := rfl
      rw [← h6, update_bits_row _ _ _ (by norm_num [MINUS_SIGN])]
    · intro q hq1 hq2
      rw [if_pos hneg] at hq2
      exact hzero q hq1 (by omega)
    · rw [hother 4 (hno 4 (by omega)),
        update_bits_other_row _ _ _ _ (by decide),
        update_bits_other_row _ _ _ _ (by decide)]
    · rw [hother 5 (hno 5 (by omega)),
        update_bits_other_row _ _ _ _ (by decide),
        update_bits_other_row _ _ _ _ (by decide)]
    · intro r
      rcases hall r with h1 | h1
      · rw [h1]
        by_cases hr6 : r = 6
        · subst hr6
          right
          have h6 : shiftedPos Index.Three * 2 = 6 := rfl
          rw [← h6, update_bits_row _ _ _ (by norm_num [MINUS_SIGN])]
          decide
        · rw [update_bits_other_row _ _ _ _ (by rw [show shiftedPos Index.Three * 2 = 6 from rfl]; exact hr6)]
          by_cases hr8 : r = 8
          · subst hr8
            right
            have h8 : shiftedPos Index.Four * 2 = 8 := rfl
            rw [← h8, update_bits_row _ _ _ (by decide)]
            decide
          · left
            exact update_bits_other_row _ _ _ _
              (by rw [show shiftedPos Index.Four * 2 = 8 from rfl]; exact hr8)
      · right
        rw [h1]
        decide
  · -- non-negative value: digit 0 at Four, blanks up to logical 2
    obtain ⟨B, hB, hzero, hother, hall⟩ := blankLoop_spec fuel (Index.toNat index)
      (update_bits buf Index.Four 63)
      (3 - (Index.toNat index : Int) - 1) hi (by omega) (by omega)
    have hrows : ∀ q : Nat, Index.toNat index ≤ q →
        (q : Int) ≤ Index.toNat index + (3 - (Index.toNat index : Int) - 1) → q ≤ 2 := by
      intro q h1 h2; omega
    have hno : ∀ r : Nat, r = 4 ∨ r = 5 ∨ r = 8 →
        (∀ q : Nat, Index.toNat index ≤ q →
          (q : Int) ≤ Index.toNat index + (3 - (Index.toNat index : Int) - 1) →
          r ≠ slotOf q * 2) := by
      intro r hr q h1 h2
      have hq2 : q ≤ 2 := hrows q h1 h2
      unfold slotOf
      split_ifs <;> omega
    refine ⟨B, ?_, ?_, ?_, ?_, ?_, ?_, ?_⟩
    · simp only [update_buffer_with_float, h]
      rw [if_neg hge, if_pos h0]
      rw [addr_three (Index.toNat index) hi]
      simp only [show Index.fromNat 3 = some Index.Four from rfl, h63]
      simp only [if_neg hneg]
      rw [hB]
      rfl
    · rw [hother 8 (hno 8 (by omega))]
      have h8 : shiftedPos Index.Four * 2 = 8 := rfl
      rw [← h8, update_bits_row _ _ _ (by decide)]
    · intro hcontra
      exact absurd hcontra hneg
    · intro q hq1 hq2
      rw [if_neg hneg] at hq2
      exact hzero q hq1 (by omega)
    · rw [hother 4 (hno 4 (by omega)), update_bits_other_row _ _ _ _ (by decide)]
    · rw [hother 5 (hno 5 (by omega)), update_bits_other_row _ _ _ _ (by decide)]
    · intro r
      rcases hall r with h1 | h1
      · rw [h1]
        by_cases hr8 : r = 8
        · subst hr8
          right
          have h8 : shiftedPos Index.Four * 2 = 8 := rfl
          rw [← h8, update_bits_row _ _ _ (by decide)]
          decide
        · left
          exact update_bits_other_row _ _ _ _
            (by rw [show shiftedPos Index.Four * 2 = 8 from rfl]; exact hr8)
      · right
        rw [h1]
        decide

/-- Witness for the amended C9: `update_buffer_with_float(Index::Two, -0.1, 0, 10)`
on an all-ones buffer — the value rounds to zero, a single 0 is drawn at slot
Four, the minus at `Index::Three`, slot Two is blanked, the colon rows keep
their prior contents, and no dot bit is newly set. -/
theorem claim9_witness :
    ∃ B, update_buffer_with_float 16 (fun _ => 255) Index.Two (-1/10 : ℚ) 0 10
        = some (Except.ok (), B) ∧
      B 8 = 0x3F ∧
      ((-1/10 : ℚ) < 0 → B 6 = MINUS_SIGN) ∧
      (∀ q : Nat, Index.toNat Index.Two ≤ q → q ≤ (if (-1/10 : ℚ) < 0 then 1 else 2) →
        B (slotOf q * 2) = 0) ∧
      B 4 = (fun _ => 255) 4 ∧ B 5 = (fun _ => 255) 5 ∧
      (∀ r, B r = (fun _ => (255:Nat)) r ∨ Nat.testBit (B r) 7 = false) := by
  have habs : absValue (-1/10 : ℚ) = 1/10 := by norm_num [absValue]
  have hnum : numDigits (Index.toNat Index.Two) (-1/10 : ℚ) = 2 := by
    norm_num [numDigits, Index.toNat]
  have hfac : initFactor 10 0 = 1 := by norm_num [initFactor]
  have hdisp0 : ratToU32 (absValue (-1/10:ℚ) * initFactor 10 0 + 1/2) = 0 := by
    rw [habs, hfac]
    apply ratToU32_eq <;> norm_num
  have hinit : initState (-1/10:ℚ) 0 10 = ⟨0, 1, 0⟩ := by rw [initState, hdisp0, hfac]
  have hloop : reduceLoop 16 (absValue (-1/10:ℚ)) 10
      (10 ^ numDigits (Index.toNat Index.Two) (-1/10:ℚ)) (initState (-1/10:ℚ) 0 10)
      = some ⟨0, 1, 0⟩ := by
    rw [hnum, hinit, show (10:Nat)^2 = 100 from by norm_num]
    exact reduceLoop_exit _ _ _ _ _ (by norm_num) (by decide)
  exact claim9_zero_special_case 16 (fun _ => 255) Index.Two (-1/10) 0 10 ⟨0, 1, 0⟩
    (by norm_num) hloop (by norm_num) rfl

end Seg7
